import Mathlib

/-!
Verification of the rasterization core of plotPNG.c (graphing-calc).

The program evaluates a user expression over a sampled domain and fills a
pixel buffer.  Machine doubles/floats are embedded as exact rationals (ℚ);
the C conversions from floating point to integer types truncate toward
zero, embedded below as the function ctrunc.  The pixel buffer is embedded
as a total function ℤ → ℤ → Option Color so that writes computed with
out-of-range indices (which are undefined behaviour in the C program)
remain visible in the model instead of being silently dropped.
Option Color is used because freshly allocated rows are uninitialized
memory: a cell holds none until something is written to it, and a colour
computed from a NaN (the max == min division by zero in Surface mode) is
likewise modelled as none.
-/

/-- One RGB pixel; each channel is stored in a png_byte in the C program.
Channel values are kept in ℤ so that range claims about them are real
claims, not typing artefacts. -/
structure Color where
  red : ℤ
  green : ℤ
  blue : ℤ
deriving DecidableEq

/-- The pixel buffer rowPointers, as a total map from (row, column) to the
cell contents.  none models uninitialized memory. -/
abbrev Buffer := ℤ → ℤ → Option Color

/-- A single store to the buffer: (row, column, value written). -/
abbrev Write := ℤ × ℤ × Option Color

/-- Writing one cell of the buffer. -/
def setPx (b : Buffer) (r c : ℤ) (v : Option Color) : Buffer :=
  fun r' c' => if r' = r ∧ c' = c then v else b r' c'

/-- Performing a sequence of buffer stores in order (later stores win). -/
def applyWrites (b : Buffer) (ws : List Write) : Buffer :=
  ws.foldl (fun b w => setPx b w.1 w.2.1 w.2.2) b

/-- C conversion from a floating-point value to an integer type:
truncation toward zero (C11 6.3.1.4).  Used for the long int conversions
of x_pixel and y_pixel and for the png_byte conversions of the colour
channels in plotPNG.c. -/
def ctrunc (q : ℚ) : ℤ :=
  if q < 0 then -⌊-q⌋ else ⌊q⌋

/-- The white background colour written at plotPNG.c line 176. -/
def white : Color := ⟨255, 255, 255⟩

/-- The blue curve colour written at plotPNG.c line 195. -/
def blue : Color := ⟨0, 0, 255⟩

/-- A buffer of entirely uninitialized cells, the state right after
allocateImageMemory (malloc does not initialize the rows). -/
def emptyBuf : Buffer := fun _ _ => none

/-- A buffer whose every cell holds white; used to make overwrites
observable in concrete demonstrations. -/
def allWhiteBuf : Buffer := fun _ _ => some white

/-! ## Curve mode (plotPNG.c lines 168-199) -/

/-- The value of x_incr at the start of iteration i of the curve loop:
x_incr starts at 0 and gains 1.0/(W*50) per iteration (line 197), so with
exact arithmetic it equals i/(W*50). -/
def sampleX (W : ℕ) (i : ℕ) : ℚ := (i : ℚ) / ((W : ℚ) * 50)

/-- The buffer store performed by iteration i of the curve sampling loop
(lines 181-198): result = f(x); if result < 1 then the pixel at row
(H-1) - (long)(result*H), column (long)(x*W) is set to blue, else
nothing is written.  Note the check is only result < 1: there is no
lower bound. -/
def curveSampleWrite (W H : ℕ) (f : ℚ → ℚ) (i : ℕ) : List Write :=
  let x : ℚ := sampleX W i
  let result : ℚ := f x
  if result < 1 then
    [(((H : ℤ) - 1) - ctrunc (result * (H : ℚ)), ctrunc (x * (W : ℚ)), some blue)]
  else []

/-- All stores of the curve sampling loop, in loop order (i = 0 .. W*50-1). -/
def curveWrites (W H : ℕ) (f : ℚ → ℚ) : List Write :=
  (List.range (W * 50)).flatMap (curveSampleWrite W H f)

/-- The stores of the background-whitening loop (lines 170-178): every cell
(i, j) with i < H, j < W is set to white, row by row. -/
def initWrites (W H : ℕ) : List Write :=
  (List.range H).flatMap fun (i : ℕ) =>
    (List.range W).map fun (j : ℕ) => ((i : ℤ), (j : ℤ), some white)

/-- The whole Curve-mode branch of makeImageData: whiten the background,
then run the sampling loop. -/
def curveRaster (W H : ℕ) (f : ℚ → ℚ) (b0 : Buffer) : Buffer :=
  applyWrites (applyWrites b0 (initWrites W H)) (curveWrites W H f)

/-! ## Surface mode (plotPNG.c lines 202-247) -/

/-- z_values[i][j]: the first pass evaluates the expression at
x = i * (1.0/imgHeight) and y = j * (1.0/imgWidth) (exact accumulation of
the increments at lines 227 and 229; in Surface mode W = H = N, so both
steps are 1/N) and stores the result (line 225). -/
def zval (N : ℕ) (f : ℚ → ℚ → ℚ) (i j : ℕ) : ℚ :=
  f ((i : ℚ) / (N : ℚ)) ((j : ℚ) / (N : ℚ))

/-- All first-pass results in evaluation order: outer loop i (x index),
inner loop j (y index), lines 204-230. -/
def gridVals (N : ℕ) (f : ℚ → ℚ → ℚ) : List ℚ :=
  (List.range N).flatMap fun i => (List.range N).map fun j => zval N f i j

/-- One step of the running (min, max) update (lines 218-222): if the new
result exceeds max, raise max; otherwise, if it is below min, lower min. -/
def mmStep (s : ℚ × ℚ) (r : ℚ) : ℚ × ℚ :=
  if s.2 < r then (s.1, r) else if r < s.1 then (r, s.2) else s

/-- The (min, max) pair after the first pass: both start at 0 (lines
128-129), are overwritten by the very first sample (i==0 && j==0, lines
212-215), and every later sample passes through mmStep. -/
def minmax (N : ℕ) (f : ℚ → ℚ → ℚ) : ℚ × ℚ :=
  match gridVals N f with
  | [] => (0, 0)
  | v :: vs => vs.foldl mmStep (v, v)

/-- The normalized value p = (z - min)/(max - min) of cell (i, j),
line 239. -/
def pNorm (N : ℕ) (f : ℚ → ℚ → ℚ) (i j : ℕ) : ℚ :=
  (zval N f i j - (minmax N f).1) / ((minmax N f).2 - (minmax N f).1)

/-- The colour bytes written for a stored value zv (lines 239-243):
red = 255*(1-p), green = 0, blue = 255*p, each truncated to a byte.
When max - min = 0 the C float division yields NaN (0.0/0.0) and the
byte conversion of NaN is undefined; that case is modelled as none. -/
def surfaceColor (zv mn mx : ℚ) : Option Color :=
  if mx - mn = 0 then none
  else
    some ⟨ctrunc (255 * (1 - (zv - mn) / (mx - mn))), 0,
          ctrunc (255 * ((zv - mn) / (mx - mn)))⟩

/-- The stores of the Surface-mode second pass (lines 234-246): grid cell
(i, j) is written at row (N-1) - i, column j. -/
def surfaceWrites (N : ℕ) (f : ℚ → ℚ → ℚ) : List Write :=
  (List.range N).flatMap fun (i : ℕ) =>
    (List.range N).map fun (j : ℕ) =>
      (((N : ℤ) - 1) - (i : ℤ), (j : ℤ),
        surfaceColor (zval N f i j) (minmax N f).1 (minmax N f).2)

/-- The whole Surface-mode branch of makeImageData acting on the buffer. -/
def surfaceBuffer (N : ℕ) (f : ℚ → ℚ → ℚ) (b0 : Buffer) : Buffer :=
  applyWrites b0 (surfaceWrites N f)

/-! ## makeImageData control flow (plotPNG.c lines 110-248) -/

/-- The fatal errors makeImageData can raise through abortProgram. -/
inductive MakeErr where
  | compileError
  | dimensionError
deriving DecidableEq

/-- Outcome of makeImageData: whether it aborted (and why), the buffer
contents afterwards, and how many te_eval calls were made. -/
structure MakeResult where
  aborted : Option MakeErr
  buffer : Buffer
  evals : ℕ

/-- makeImageData.  The compiled expression is passed as
Option (ℚ → ℚ → ℚ): none models te_compile failure (line 147).  y0 is the
value read from the uninitialized variable y in Curve mode.  Control flow
follows the source: compile check (line 147), then the dimension check
fxy_check != NULL && imgHeight != imgWidth (line 160), then the branch on
fxy_check == NULL (line 168), i.e. on whether the raw expression string
contains the character y. -/
def makeImageData (W H : ℕ) (expr : String) (compiled : Option (ℚ → ℚ → ℚ))
    (y0 : ℚ) (b0 : Buffer) : MakeResult :=
  match compiled with
  | none => ⟨some MakeErr.compileError, b0, 0⟩
  | some f =>
    if 'y' ∈ expr.data ∧ H ≠ W then ⟨some MakeErr.dimensionError, b0, 0⟩
    else if 'y' ∈ expr.data then ⟨none, surfaceBuffer W f b0, W * W⟩
    else ⟨none, curveRaster W H (fun x => f x y0) b0, W * 50⟩

/-- The two plot modes. -/
inductive PlotMode where
  | curve
  | surface
deriving DecidableEq

/-- Mode selection: strchr(expression, 'y') at line 131; Surface mode iff
the raw expression string contains the character y. -/
def plotModeOf (e : String) : PlotMode :=
  if 'y' ∈ e.data then PlotMode.surface else PlotMode.curve

/-! ## main argument validation (plotPNG.c lines 44-103) -/

/-- Whether the needle matches at the head of the haystack. -/
def leadMatch : List Char → List Char → Bool
  | [], _ => true
  | _ :: _, [] => false
  | n :: ns, h :: hs => n = h && leadMatch ns hs

/-- strstr as a Boolean: the needle occurs somewhere in the haystack. -/
def hasSubstr (needle : List Char) : List Char → Bool
  | [] => needle.isEmpty
  | h :: t => leadMatch needle (h :: t) || hasSubstr needle t

/-- The fatal usage errors of main, in the order they are checked. -/
inductive MainErr where
  | wrongArgCount
  | badExtension
  | equalsInExpr
deriving DecidableEq

/-- Outcome of the validation prefix of main: which fatal check (if any)
aborted the process, and whether execution reached writePngFileHeader,
the first point at which the output file is opened/created (fopen at
line 292). -/
structure MainOutcome where
  aborted : Option MainErr
  fileOpened : Bool
deriving DecidableEq

/-- The validation prefix of main (lines 59-94): argc must be exactly 3
(program name plus 2 positional arguments), argv[1] must contain ".png",
argv[2] must not contain '='; each failure aborts (stderr message plus
abort(), hence non-zero exit) before writePngFileHeader is called.  The
two stderr warnings at lines 80-92 do not alter control flow. -/
def runMainChecks (args : List String) : MainOutcome :=
  if args.length ≠ 3 then ⟨some MainErr.wrongArgCount, false⟩
  else if hasSubstr ".png".data (args.getD 1 "").data = false then
    ⟨some MainErr.badExtension, false⟩
  else if '=' ∈ (args.getD 2 "").data then ⟨some MainErr.equalsInExpr, false⟩
  else ⟨none, true⟩

/-- Sample i of the curve loop passes the range check (result < 1, line
186) and targets the buffer cell (r, c) through the index computations of
lines 187-194. -/
def curveHit (W H : ℕ) (g : ℚ → ℚ) (i : ℕ) (r c : ℤ) : Prop :=
  g (sampleX W i) < 1 ∧
    r = ((H : ℤ) - 1) - ctrunc (g (sampleX W i) * (H : ℚ)) ∧
    c = ctrunc (sampleX W i * (W : ℚ))

instance (W H : ℕ) (g : ℚ → ℚ) (i : ℕ) (r c : ℤ) :
    Decidable (curveHit W H g i r c) := by
  unfold curveHit
  infer_instance

/-! ## Helper lemmas about sequences of buffer stores -/

lemma applyWrites_nil (b : Buffer) : applyWrites b [] = b := rfl

lemma applyWrites_cons (b : Buffer) (w : Write) (ws : List Write) :
    applyWrites b (w :: ws) = applyWrites (setPx b w.1 w.2.1 w.2.2) ws := rfl

/-- A cell targeted by none of the stores keeps its previous contents. -/
lemma applyWrites_miss (r c : ℤ) :
    ∀ (ws : List Write) (b : Buffer),
      (∀ w ∈ ws, ¬(w.1 = r ∧ w.2.1 = c)) → applyWrites b ws r c = b r c := by
  intro ws
  induction ws with
  | nil => intro b _; rfl
  | cons w ws ih =>
    intro b h
    have htail : ∀ w' ∈ ws, ¬(w'.1 = r ∧ w'.2.1 = c) :=
      fun w' hw' => h w' (List.mem_cons_of_mem _ hw')
    rw [applyWrites_cons, ih _ htail]
    show (if r = w.1 ∧ c = w.2.1 then w.2.2 else b r c) = b r c
    rw [if_neg]
    intro hc
    exact h w (List.mem_cons_self _ _) ⟨hc.1.symm, hc.2.symm⟩

/-- If every store aimed at a cell writes the same value and at least one
store aims at it, the cell ends up holding that value. -/
lemma applyWrites_hit (r c : ℤ) (v : Option Color) :
    ∀ (ws : List Write) (b : Buffer),
      (∀ w ∈ ws, w.1 = r ∧ w.2.1 = c → w.2.2 = v) →
      (∃ w ∈ ws, w.1 = r ∧ w.2.1 = c) →
      applyWrites b ws r c = v := by
  intro ws
  induction ws with
  | nil =>
    intro b _ hex
    rcases hex with ⟨w, hw, _⟩
    cases hw
  | cons w ws ih =>
    intro b hall hex
    by_cases htail : ∃ w' ∈ ws, w'.1 = r ∧ w'.2.1 = c
    · exact ih _ (fun w' hw' => hall w' (List.mem_cons_of_mem _ hw')) htail
    · have hmiss : ∀ w' ∈ ws, ¬(w'.1 = r ∧ w'.2.1 = c) := by
        intro w' hw' hc
        exact htail ⟨w', hw', hc⟩
      have hw : w.1 = r ∧ w.2.1 = c := by
        rcases hex with ⟨w', hw', hc⟩
        rcases List.mem_cons.mp hw' with h | h
        · exact h ▸ hc
        · exact absurd hc (hmiss w' h)
      rw [applyWrites_cons, applyWrites_miss r c ws _ hmiss]
      show (if r = w.1 ∧ c = w.2.1 then w.2.2 else b r c) = v
      rw [if_pos ⟨hw.1.symm, hw.2.symm⟩]
      exact hall w (List.mem_cons_self _ _) hw

/-! ## Helper lemmas about ctrunc -/

lemma ctrunc_of_nonneg {q : ℚ} (h : 0 ≤ q) : ctrunc q = ⌊q⌋ := by
  unfold ctrunc
  rw [if_neg (not_lt.mpr h)]

lemma ctrunc_nonneg {q : ℚ} (h : 0 ≤ q) : 0 ≤ ctrunc q := by
  rw [ctrunc_of_nonneg h]
  exact Int.floor_nonneg.mpr h

lemma ctrunc_le_255 {q : ℚ} (h0 : 0 ≤ q) (h : q ≤ 255) : ctrunc q ≤ 255 := by
  rw [ctrunc_of_nonneg h0]
  have := Int.floor_le_floor (α := ℚ) h
  simpa using this

/-! ## Membership characterizations of the store lists -/

lemma mem_ite_singleton {P : Prop} [Decidable P] (a w : Write) :
    (w ∈ if P then [a] else ([] : List Write)) ↔ P ∧ w = a := by
  by_cases h : P <;> simp [h]

lemma mem_curveWrites (W H : ℕ) (f : ℚ → ℚ) (w : Write) :
    w ∈ curveWrites W H f ↔
      ∃ i, i < W * 50 ∧ f (sampleX W i) < 1 ∧
        w = (((H : ℤ) - 1) - ctrunc (f (sampleX W i) * (H : ℚ)),
             ctrunc (sampleX W i * (W : ℚ)), some blue) := by
  unfold curveWrites curveSampleWrite
  rw [List.mem_flatMap]
  constructor
  · rintro ⟨i, hi, hw⟩
    rw [List.mem_range] at hi
    rw [mem_ite_singleton] at hw
    exact ⟨i, hi, hw.1, hw.2⟩
  · rintro ⟨i, hi, hlt, hw⟩
    exact ⟨i, List.mem_range.mpr hi, (mem_ite_singleton _ _).mpr ⟨hlt, hw⟩⟩

lemma mem_initWrites (W H : ℕ) (w : Write) :
    w ∈ initWrites W H ↔
      ∃ i, i < H ∧ ∃ j, j < W ∧ w = ((i : ℤ), (j : ℤ), some white) := by
  unfold initWrites
  rw [List.mem_flatMap]
  constructor
  · rintro ⟨i, hi, hw⟩
    rw [List.mem_range] at hi
    rcases List.mem_map.mp hw with ⟨j, hj, rfl⟩
    rw [List.mem_range] at hj
    exact ⟨i, hi, j, hj, rfl⟩
  · rintro ⟨i, hi, j, hj, rfl⟩
    exact ⟨i, List.mem_range.mpr hi, List.mem_map.mpr ⟨j, List.mem_range.mpr hj, rfl⟩⟩

lemma mem_surfaceWrites (N : ℕ) (f : ℚ → ℚ → ℚ) (w : Write) :
    w ∈ surfaceWrites N f ↔
      ∃ i, i < N ∧ ∃ j, j < N ∧
        w = (((N : ℤ) - 1) - (i : ℤ), (j : ℤ),
             surfaceColor (zval N f i j) (minmax N f).1 (minmax N f).2) := by
  unfold surfaceWrites
  rw [List.mem_flatMap]
  constructor
  · rintro ⟨i, hi, hw⟩
    rw [List.mem_range] at hi
    rcases List.mem_map.mp hw with ⟨j, hj, rfl⟩
    rw [List.mem_range] at hj
    exact ⟨i, hi, j, hj, rfl⟩
  · rintro ⟨i, hi, j, hj, rfl⟩
    exact ⟨i, List.mem_range.mpr hi, List.mem_map.mpr ⟨j, List.mem_range.mpr hj, rfl⟩⟩

/-! ## Folded minimum and maximum -/

lemma foldl_min_le_init (vs : List ℚ) : ∀ a : ℚ, vs.foldl min a ≤ a := by
  induction vs with
  | nil => intro a; exact le_refl a
  | cons v vs ih =>
    intro a
    calc vs.foldl min (min a v) ≤ min a v := ih _
    _ ≤ a := min_le_left _ _

lemma foldl_min_le_mem (vs : List ℚ) :
    ∀ (a v : ℚ), v ∈ vs → vs.foldl min a ≤ v := by
  induction vs with
  | nil => intro a v hv; cases hv
  | cons u vs ih =>
    intro a v hv
    rcases List.mem_cons.mp hv with h | h
    · subst h
      calc vs.foldl min (min a v) ≤ min a v := foldl_min_le_init _ _
      _ ≤ v := min_le_right _ _
    · exact ih _ v h

lemma foldl_min_mem (vs : List ℚ) :
    ∀ a : ℚ, vs.foldl min a = a ∨ vs.foldl min a ∈ vs := by
  induction vs with
  | nil => intro a; exact Or.inl rfl
  | cons u vs ih =>
    intro a
    rcases ih (min a u) with h | h
    · rcases min_choice a u with hc | hc
      · exact Or.inl (by rw [List.foldl_cons, h, hc])
      · refine Or.inr ?_
        rw [List.foldl_cons, h, hc]
        exact List.mem_cons_self _ _
    · exact Or.inr (List.mem_cons_of_mem _ h)

lemma le_foldl_max_init (vs : List ℚ) : ∀ a : ℚ, a ≤ vs.foldl max a := by
  induction vs with
  | nil => intro a; exact le_refl a
  | cons v vs ih =>
    intro a
    calc a ≤ max a v := le_max_left _ _
    _ ≤ vs.foldl max (max a v) := ih _

lemma mem_le_foldl_max (vs : List ℚ) :
    ∀ (a v : ℚ), v ∈ vs → v ≤ vs.foldl max a := by
  induction vs with
  | nil => intro a v hv; cases hv
  | cons u vs ih =>
    intro a v hv
    rcases List.mem_cons.mp hv with h | h
    · subst h
      calc v ≤ max a v := le_max_right _ _
      _ ≤ vs.foldl max (max a v) := le_foldl_max_init _ _
    · exact ih _ v h

lemma foldl_max_mem (vs : List ℚ) :
    ∀ a : ℚ, vs.foldl max a = a ∨ vs.foldl max a ∈ vs := by
  induction vs with
  | nil => intro a; exact Or.inl rfl
  | cons u vs ih =>
    intro a
    rcases ih (max a u) with h | h
    · rcases max_choice a u with hc | hc
      · exact Or.inl (by rw [List.foldl_cons, h, hc])
      · refine Or.inr ?_
        rw [List.foldl_cons, h, hc]
        exact List.mem_cons_self _ _
    · exact Or.inr (List.mem_cons_of_mem _ h)

/-- The source's else-if update step agrees with the mathematical
(min, max) update whenever the state is ordered. -/
lemma mmStep_eq_minmax {a b r : ℚ} (h : a ≤ b) :
    mmStep (a, b) r = (min a r, max b r) := by
  unfold mmStep
  dsimp only
  by_cases h1 : b < r
  · rw [if_pos h1, min_eq_left (le_of_lt (lt_of_le_of_lt h h1)),
        max_eq_right (le_of_lt h1)]
  · rw [if_neg h1]
    by_cases h2 : r < a
    · rw [if_pos h2, min_eq_right (le_of_lt h2),
        max_eq_left (le_trans (le_of_lt h2) h)]
    · rw [if_neg h2, min_eq_left (not_lt.mp h2), max_eq_left (not_lt.mp h1)]

lemma foldl_mmStep_eq (vs : List ℚ) :
    ∀ a b : ℚ, a ≤ b →
      vs.foldl mmStep (a, b) = (vs.foldl min a, vs.foldl max b) := by
  induction vs with
  | nil => intro a b _; rfl
  | cons v vs ih =>
    intro a b h
    rw [List.foldl_cons, List.foldl_cons, List.foldl_cons, mmStep_eq_minmax h]
    exact ih _ _ (le_trans (le_trans (min_le_left a v) h) (le_max_left b v))

/-! ## First-pass grid facts -/

lemma zval_mem_gridVals (N : ℕ) (f : ℚ → ℚ → ℚ) {i j : ℕ}
    (hi : i < N) (hj : j < N) : zval N f i j ∈ gridVals N f := by
  unfold gridVals
  rw [List.mem_flatMap]
  exact ⟨i, List.mem_range.mpr hi,
    List.mem_map.mpr ⟨j, List.mem_range.mpr hj, rfl⟩⟩

lemma mem_gridVals_iff (N : ℕ) (f : ℚ → ℚ → ℚ) (v : ℚ) :
    v ∈ gridVals N f ↔ ∃ i, i < N ∧ ∃ j, j < N ∧ v = zval N f i j := by
  unfold gridVals
  rw [List.mem_flatMap]
  constructor
  · rintro ⟨i, hi, hv⟩
    rw [List.mem_range] at hi
    rcases List.mem_map.mp hv with ⟨j, hj, rfl⟩
    rw [List.mem_range] at hj
    exact ⟨i, hi, j, hj, rfl⟩
  · rintro ⟨i, hi, j, hj, rfl⟩
    exact ⟨i, List.mem_range.mpr hi,
      List.mem_map.mpr ⟨j, List.mem_range.mpr hj, rfl⟩⟩

lemma gridVals_length (N : ℕ) (f : ℚ → ℚ → ℚ) :
    (gridVals N f).length = N * N := by
  unfold gridVals
  rw [List.length_flatMap]
  simp only [Function.comp_def]
  have h1 : ((List.range N).map fun i =>
      ((List.range N).map fun j => zval N f i j).length) =
      (List.range N).map fun _ => N := by
    apply List.map_congr_left
    intro i _
    rw [List.length_map, List.length_range]
  rw [h1, List.map_const', List.length_range, List.sum_replicate, smul_eq_mul]

/-- For a positive grid size, the sample stream starts with the (0, 0)
sample, the very one the code uses to initialize min and max. -/
lemma gridVals_cons (N : ℕ) (f : ℚ → ℚ → ℚ) (h : 0 < N) :
    ∃ vs, gridVals N f = zval N f 0 0 :: vs := by
  obtain ⟨m, rfl⟩ : ∃ m, N = m + 1 := ⟨N - 1, (Nat.succ_pred_eq_of_pos h).symm⟩
  unfold gridVals
  rw [List.range_succ_eq_map, List.flatMap_cons, List.map_cons, List.cons_append]
  exact ⟨_, rfl⟩

/-- After the first pass, min is an attained lower bound and max an
attained upper bound of all sampled values. -/
lemma minmax_spec (N : ℕ) (f : ℚ → ℚ → ℚ) (h : 0 < N) :
    (minmax N f).1 ∈ gridVals N f ∧ (minmax N f).2 ∈ gridVals N f ∧
      ∀ v ∈ gridVals N f, (minmax N f).1 ≤ v ∧ v ≤ (minmax N f).2 := by
  obtain ⟨vs, hg⟩ := gridVals_cons N f h
  have hmm : minmax N f = (vs.foldl min (zval N f 0 0), vs.foldl max (zval N f 0 0)) := by
    unfold minmax
    rw [hg]
    exact foldl_mmStep_eq vs _ _ (le_refl _)
  rw [hmm, hg]
  refine ⟨?_, ?_, ?_⟩
  · rcases foldl_min_mem vs (zval N f 0 0) with h1 | h1
    · rw [h1]; exact List.mem_cons_self _ _
    · exact List.mem_cons_of_mem _ h1
  · rcases foldl_max_mem vs (zval N f 0 0) with h1 | h1
    · rw [h1]; exact List.mem_cons_self _ _
    · exact List.mem_cons_of_mem _ h1
  · intro v hv
    rcases List.mem_cons.mp hv with h1 | h1
    · subst h1
      exact ⟨foldl_min_le_init _ _, le_foldl_max_init _ _⟩
    · exact ⟨foldl_min_le_mem _ _ _ h1, mem_le_foldl_max _ _ _ h1⟩

/-! ## Characterization of the two rasterization branches -/

/-- A cell targeted by some accepted sample ends up blue. -/
lemma curveRaster_blue (W H : ℕ) (g : ℚ → ℚ) (b0 : Buffer) (r c : ℤ)
    (hex : ∃ i, i < W * 50 ∧ curveHit W H g i r c) :
    curveRaster W H g b0 r c = some blue := by
  unfold curveRaster
  apply applyWrites_hit
  · intro w hw _
    rcases (mem_curveWrites W H g w).mp hw with ⟨i, _, _, rfl⟩
    rfl
  · rcases hex with ⟨i, hi, hlt, hr, hc⟩
    exact ⟨_, (mem_curveWrites W H g _).mpr ⟨i, hi, hlt, rfl⟩, hr.symm, hc.symm⟩

/-- An in-bounds cell targeted by no accepted sample keeps the white
background colour. -/
lemma curveRaster_white (W H : ℕ) (g : ℚ → ℚ) (b0 : Buffer) (r c : ℤ)
    (hr0 : 0 ≤ r) (hrH : r < (H : ℤ)) (hc0 : 0 ≤ c) (hcW : c < (W : ℤ))
    (hmiss : ∀ i, i < W * 50 → ¬ curveHit W H g i r c) :
    curveRaster W H g b0 r c = some white := by
  unfold curveRaster
  rw [applyWrites_miss r c (curveWrites W H g) _ ?hm]
  case hm =>
    intro w hw hhit
    rcases (mem_curveWrites W H g w).mp hw with ⟨i, hi, hlt, rfl⟩
    exact hmiss i hi ⟨hlt, hhit.1.symm, hhit.2.symm⟩
  apply applyWrites_hit
  · intro w hw _
    rcases (mem_initWrites W H w).mp hw with ⟨i, _, j, _, rfl⟩
    rfl
  · refine ⟨(r, c, some white), ?_, rfl, rfl⟩
    apply (mem_initWrites W H _).mpr
    refine ⟨r.toNat, by omega, c.toNat, by omega, ?_⟩
    rw [Int.toNat_of_nonneg hr0, Int.toNat_of_nonneg hc0]

/-- The second pass writes cell (i, j) of the grid at row (N-1)-i,
column j, with the normalized colour of the stored value. -/
lemma surfaceBuffer_cell (N : ℕ) (f : ℚ → ℚ → ℚ) (b0 : Buffer) {i j : ℕ}
    (hi : i < N) (hj : j < N) :
    surfaceBuffer N f b0 (((N : ℤ) - 1) - (i : ℤ)) (j : ℤ) =
      surfaceColor (zval N f i j) (minmax N f).1 (minmax N f).2 := by
  unfold surfaceBuffer
  apply applyWrites_hit
  · intro w hw hhit
    rcases (mem_surfaceWrites N f w).mp hw with ⟨i', _, j', _, rfl⟩
    obtain ⟨h1, h2⟩ := hhit
    dsimp only at h1 h2
    have hii : i' = i := by omega
    have hjj : j' = j := by omega
    rw [hii, hjj]
  · exact ⟨_, (mem_surfaceWrites N f _).mpr ⟨i, hi, j, hj, rfl⟩, rfl, rfl⟩

/-! ## The expression x + y -/

/-- For the expression x + y the first pass attains its minimum at the
(0, 0) sample and its maximum at the (N-1, N-1) sample. -/
lemma minmax_addXY (N : ℕ) (h : 2 ≤ N) :
    minmax N (fun x y => x + y) =
      (0, zval N (fun x y => x + y) (N - 1) (N - 1)) := by
  have hN : 0 < N := by omega
  have hNQ : (0 : ℚ) < (N : ℚ) := by exact_mod_cast hN
  obtain ⟨h1, h2, h3⟩ := minmax_spec N (fun x y => x + y) hN
  have hval : ∀ v ∈ gridVals N (fun x y => x + y),
      0 ≤ v ∧ v ≤ zval N (fun x y => x + y) (N - 1) (N - 1) := by
    intro v hv
    rcases (mem_gridVals_iff N _ v).mp hv with ⟨i, hi, j, hj, rfl⟩
    constructor
    · exact add_nonneg (div_nonneg (Nat.cast_nonneg i) (le_of_lt hNQ))
        (div_nonneg (Nat.cast_nonneg j) (le_of_lt hNQ))
    · have hiq : (i : ℚ) ≤ ((N - 1 : ℕ) : ℚ) :=
        Nat.cast_le.mpr (by omega)
      have hjq : (j : ℚ) ≤ ((N - 1 : ℕ) : ℚ) :=
        Nat.cast_le.mpr (by omega)
      exact add_le_add ((div_le_div_iff_of_pos_right hNQ).mpr hiq)
        ((div_le_div_iff_of_pos_right hNQ).mpr hjq)
  have hz00 : zval N (fun x y => x + y) 0 0 = 0 := by
    unfold zval
    norm_num
  have e1 : (minmax N (fun x y => x + y)).1 = 0 := by
    apply le_antisymm
    · have := (h3 _ (zval_mem_gridVals N _ hN hN)).1
      rw [hz00] at this
      exact this
    · exact (hval _ h1).1
  have e2 : (minmax N (fun x y => x + y)).2 =
      zval N (fun x y => x + y) (N - 1) (N - 1) := by
    apply le_antisymm
    · exact (hval _ h2).2
    · exact (h3 _ (zval_mem_gridVals N _ (by omega) (by omega))).2
  exact Prod.ext_iff.mpr ⟨e1, e2⟩

/-! ## Claim theorems -/

/-- Claim C5: plot-mode selection is a pure textual check on the raw
expression string: Surface mode is selected if and only if the string
contains the character y, Curve mode otherwise, and the selected mode
depends on nothing but that textual fact (in particular not on the
compiled expression, which plotModeOf never receives). -/
theorem plot_mode_textual :
    (∀ e : String,
      (plotModeOf e = PlotMode.surface ↔ 'y' ∈ e.data) ∧
      (plotModeOf e = PlotMode.curve ↔ ¬ 'y' ∈ e.data)) ∧
    (∀ e₁ e₂ : String, ('y' ∈ e₁.data ↔ 'y' ∈ e₂.data) →
      plotModeOf e₁ = plotModeOf e₂) := by
  constructor
  · intro e
    unfold plotModeOf
    by_cases h : 'y' ∈ e.data <;> simp [h]
  · intro e₁ e₂ hiff
    unfold plotModeOf
    by_cases h : 'y' ∈ e₁.data
    · rw [if_pos h, if_pos (hiff.mp h)]
    · rw [if_neg h, if_neg (fun hc => h (hiff.mpr hc))]

/-- Witness for C5 at concrete expression strings. -/
theorem plot_mode_textual_witness :
    plotModeOf "x+y" = PlotMode.surface ∧ plotModeOf "x*x" = PlotMode.curve :=
  ⟨(plot_mode_textual.1 "x+y").1.mpr (by decide),
   (plot_mode_textual.1 "x*x").2.mpr (by decide)⟩

/-- Claim C7: if Surface mode is selected (the expression string contains
y) and the buffer width differs from the height, makeImageData aborts
with the dimension error before any sampling: the evaluator is called
zero times and the buffer is returned exactly as it was. -/
theorem surface_dim_mismatch_aborts_early (W H : ℕ) (expr : String)
    (f : ℚ → ℚ → ℚ) (y0 : ℚ) (b0 : Buffer)
    (hy : 'y' ∈ expr.data) (hdim : W ≠ H) :
    makeImageData W H expr (some f) y0 b0 =
      ⟨some MakeErr.dimensionError, b0, 0⟩ := by
  unfold makeImageData
  dsimp only
  rw [if_pos ⟨hy, Ne.symm hdim⟩]

/-- Witness for C7: a 2 by 3 buffer with expression "y". -/
theorem surface_dim_mismatch_aborts_early_witness :
    makeImageData 2 3 "y" (some fun _ _ => 0) 0 emptyBuf =
      ⟨some MakeErr.dimensionError, emptyBuf, 0⟩ :=
  surface_dim_mismatch_aborts_early 2 3 "y" (fun _ _ => 0) 0 emptyBuf
    (by decide) (by decide)

/-- Claim C8: with an argument count other than exactly 2 positional
arguments (argc different from 3), main aborts with the usage error
before the output file is opened or created. -/
theorem wrong_argc_aborts_before_open (args : List String)
    (h : args.length ≠ 3) :
    runMainChecks args = ⟨some MainErr.wrongArgCount, false⟩ := by
  unfold runMainChecks
  rw [if_pos h]

/-- Witness for C8: one positional argument only. -/
theorem wrong_argc_aborts_before_open_witness :
    runMainChecks ["plot", "out.png"] = ⟨some MainErr.wrongArgCount, false⟩ :=
  wrong_argc_aborts_before_open ["plot", "out.png"] (by decide)

/-- Claim C4: the Surface-mode first pass evaluates f(i/N, j/N) for all
i, j below N, stores every result in the grid, and ends with min an
attained lower bound and max an attained upper bound of all N*N results
(both initialized from the first sample, so min and max are themselves
sampled values and a constant surface yields min = max = the constant). -/
theorem surface_first_pass_minmax (N : ℕ) (f : ℚ → ℚ → ℚ) (hN : 0 < N) :
    (gridVals N f).length = N * N ∧
    (∀ i j, i < N → j < N →
      zval N f i j = f ((i : ℚ) / (N : ℚ)) ((j : ℚ) / (N : ℚ)) ∧
      zval N f i j ∈ gridVals N f) ∧
    ((minmax N f).1 ∈ gridVals N f ∧
      ∀ v ∈ gridVals N f, (minmax N f).1 ≤ v) ∧
    ((minmax N f).2 ∈ gridVals N f ∧
      ∀ v ∈ gridVals N f, v ≤ (minmax N f).2) ∧
    (∀ c : ℚ, (∀ x y, f x y = c) → minmax N f = (c, c)) := by
  obtain ⟨h1, h2, h3⟩ := minmax_spec N f hN
  refine ⟨gridVals_length N f, ?_,
    ⟨h1, fun v hv => (h3 v hv).1⟩, ⟨h2, fun v hv => (h3 v hv).2⟩, ?_⟩
  · intro i j hi hj
    exact ⟨rfl, zval_mem_gridVals N f hi hj⟩
  · intro c hc
    have hmem : ∀ v ∈ gridVals N f, v = c := by
      intro v hv
      rcases (mem_gridVals_iff N f v).mp hv with ⟨i, _, j, _, rfl⟩
      exact hc _ _
    exact Prod.ext_iff.mpr ⟨hmem _ h1, hmem _ h2⟩

/-- Witness for C4: a constant surface yields min = max = the constant. -/
theorem surface_first_pass_minmax_witness :
    minmax 2 (fun _ _ => (7 : ℚ)) = (7, 7) :=
  (surface_first_pass_minmax 2 (fun _ _ => (7 : ℚ)) (by decide)).2.2.2.2
    7 (fun _ _ => rfl)

/-- Claim C10: every stored grid value lies between the first-pass min
and max; hence when max > min, the normalized p lies in [0, 1] and both
truncated channel bytes 255*(1-p) and 255*p lie in [0, 255]. -/
theorem surface_normalization_in_range (N : ℕ) (f : ℚ → ℚ → ℚ) (hN : 0 < N)
    (i j : ℕ) (hi : i < N) (hj : j < N) :
    (minmax N f).1 ≤ zval N f i j ∧ zval N f i j ≤ (minmax N f).2 ∧
    ((minmax N f).1 < (minmax N f).2 →
      0 ≤ pNorm N f i j ∧ pNorm N f i j ≤ 1 ∧
      0 ≤ ctrunc (255 * (1 - pNorm N f i j)) ∧
      ctrunc (255 * (1 - pNorm N f i j)) ≤ 255 ∧
      0 ≤ ctrunc (255 * pNorm N f i j) ∧
      ctrunc (255 * pNorm N f i j) ≤ 255) := by
  obtain ⟨_, _, h3⟩ := minmax_spec N f hN
  obtain ⟨hz1, hz2⟩ := h3 _ (zval_mem_gridVals N f hi hj)
  refine ⟨hz1, hz2, ?_⟩
  intro hlt
  have hd : 0 < (minmax N f).2 - (minmax N f).1 := sub_pos.mpr hlt
  have hp0 : 0 ≤ pNorm N f i j :=
    div_nonneg (sub_nonneg.mpr hz1) (le_of_lt hd)
  have hp1 : pNorm N f i j ≤ 1 := by
    unfold pNorm
    rw [div_le_one hd]
    exact sub_le_sub_right hz2 _
  exact ⟨hp0, hp1,
    ctrunc_nonneg (by linarith), ctrunc_le_255 (by linarith) (by linarith),
    ctrunc_nonneg (by linarith), ctrunc_le_255 (by linarith) (by linarith)⟩

/-- Witness for C10 at a concrete non-degenerate surface. -/
theorem surface_normalization_in_range_witness :
    (minmax 2 (fun x y => x + y)).1 ≤ zval 2 (fun x y => x + y) 0 1 :=
  (surface_normalization_in_range 2 (fun x y => x + y) (by decide)
    0 1 (by decide) (by decide)).1

/-- Counterexample to C3 as stated: with the constant expression
-1/600, no sample result lies in [0, 1) (every result is negative), so
the claim says every pixel of the buffer remains white; yet the code
accepts every sample (the check is only result < 1), computes row
(H-1) - trunc(result*H) = 0 for H = 1, and paints pixel (0, 0) blue. -/
theorem curve_unhit_pixel_not_white :
    ((-1 : ℚ)/600 < 0) ∧
    curveRaster 1 1 (fun _ => (-1 : ℚ)/600) allWhiteBuf 0 0 = some blue ∧
    decide ((some blue : Option Color) = some white) = false := by
  refine ⟨by norm_num, ?_, rfl⟩
  with_unfolding_all rfl

/-- Claim C3 (amended): in Curve mode the rasterizer whitens the whole
W by H buffer, then takes exactly W*50 samples at x = i/(W*50); each
sample with result < 1 (not only results in [0,1)) paints blue the cell
at column trunc(x*W), row (H-1) - trunc(result*H); an in-bounds cell hit
by no such sample stays white; all accepted samples write the same blue,
so overlapping writes are harmless; and for results >= 0 the truncations
agree with the floor formula of the original claim. -/
theorem curve_raster_characterization (W H : ℕ) (g : ℚ → ℚ) (b0 : Buffer)
    (r c : ℤ) (hr0 : 0 ≤ r) (hrH : r < (H : ℤ)) (hc0 : 0 ≤ c)
    (hcW : c < (W : ℤ)) :
    ((∃ i, i < W * 50 ∧ curveHit W H g i r c) →
      curveRaster W H g b0 r c = some blue) ∧
    ((∀ i, i < W * 50 → ¬ curveHit W H g i r c) →
      curveRaster W H g b0 r c = some white) ∧
    (∀ q : ℚ, 0 ≤ q → ctrunc q = ⌊q⌋) :=
  ⟨curveRaster_blue W H g b0 r c,
   curveRaster_white W H g b0 r c hr0 hrH hc0 hcW,
   fun _ hq => ctrunc_of_nonneg hq⟩

/-- Witness for C3: the constant expression 1/2 paints the single cell of
a 1 by 1 buffer blue through sample 0. -/
theorem curve_raster_characterization_witness :
    curveRaster 1 1 (fun _ => (1 : ℚ)/2) emptyBuf 0 0 = some blue :=
  (curve_raster_characterization 1 1 (fun _ => (1 : ℚ)/2) emptyBuf 0 0
    (by decide) (by decide) (by decide) (by decide)).1
    ⟨0, by decide, by with_unfolding_all decide⟩

/-- Claim C1 is contradicted by the code: the sample result -1/600 is
outside [0, 1), so by the claim it must be dropped with no pixel write,
but the range check at line 186 (result < 1 only, no lower bound) accepts
it and a blue pixel write happens; on a 1 by 1 buffer it lands in
bounds at cell (0, 0). -/
theorem curve_negative_sample_plotted :
    ((-1 : ℚ)/600 < 1) ∧ ((-1 : ℚ)/600 < 0) ∧
    curveRaster 1 1 (fun _ => (-1 : ℚ)/600) emptyBuf 0 0 = some blue := by
  refine ⟨by norm_num, by norm_num, ?_⟩
  with_unfolding_all rfl

/-- Claim C9 is contradicted by the code: with the constant expression
-1 on a 1 by 1 buffer every sample is accepted (-1 < 1) and writes to
row (H-1) - trunc(-1*H) = 0 - (-1) = 1, which is outside [0, H) = [0, 1):
the uninitialized cell at row 1 is overwritten, an out-of-bounds buffer
write (undefined behaviour in the C program). -/
theorem curve_accepted_write_out_of_bounds :
    ((-1 : ℚ) < 1) ∧
    curveRaster 1 1 (fun _ => (-1 : ℚ)) emptyBuf 1 0 = some blue ∧
    emptyBuf 1 0 = none ∧
    decide ((1 : ℤ) < 1) = false := by
  refine ⟨by norm_num, ?_, rfl, rfl⟩
  with_unfolding_all rfl

/-- Claim C6 is contradicted by the code: for the constant surface 5,
min = max = 5 after the first pass, the normalization divides by zero
(0.0/0.0, NaN in the C program), and every pixel of the buffer receives
the undefined NaN-derived colour (modelled none) instead of a uniform
well-defined colour; the previously white cells are overwritten with it. -/
theorem surface_degenerate_nan_colour :
    minmax 2 (fun _ _ => (5 : ℚ)) = (5, 5) ∧
    surfaceBuffer 2 (fun _ _ => (5 : ℚ)) allWhiteBuf 0 0 = none ∧
    surfaceBuffer 2 (fun _ _ => (5 : ℚ)) allWhiteBuf 0 1 = none ∧
    surfaceBuffer 2 (fun _ _ => (5 : ℚ)) allWhiteBuf 1 0 = none ∧
    surfaceBuffer 2 (fun _ _ => (5 : ℚ)) allWhiteBuf 1 1 = none ∧
    allWhiteBuf 0 0 = some white := by
  refine ⟨?_, ?_, ?_, ?_, ?_, rfl⟩ <;> with_unfolding_all rfl

/-- The colour written for a cell holding the minimum value (p = 0) is
pure red, provided the value range is non-degenerate. -/
lemma surfaceColor_at_min (mx : ℚ) (h : mx ≠ 0) :
    surfaceColor 0 0 mx = some ⟨255, 0, 0⟩ := by
  unfold surfaceColor
  rw [if_neg (by simpa using h)]
  have h0 : (0 - 0 : ℚ) / (mx - 0) = 0 := by norm_num
  rw [h0]
  have h255 : ctrunc (255 * (1 - 0)) = 255 := by
    rw [ctrunc_of_nonneg (by norm_num)]
    norm_num
  have hz : ctrunc (255 * (0 : ℚ)) = 0 := by
    rw [ctrunc_of_nonneg (by norm_num)]
    norm_num
  rw [h255, hz]

/-- The colour written for a cell holding the maximum value (p = 1) is
pure blue, provided the value range is non-degenerate. -/
lemma surfaceColor_at_max (mx : ℚ) (h : mx ≠ 0) :
    surfaceColor mx 0 mx = some ⟨0, 0, 255⟩ := by
  unfold surfaceColor
  rw [if_neg (by simpa using h)]
  have h1 : (mx - 0 : ℚ) / (mx - 0) = 1 := by
    rw [sub_zero]
    exact div_self h
  rw [h1]
  have hz : ctrunc (255 * (1 - 1 : ℚ)) = 0 := by
    rw [ctrunc_of_nonneg (by norm_num)]
    norm_num
  have h255 : ctrunc (255 * (1 : ℚ)) = 255 := by
    rw [ctrunc_of_nonneg (by norm_num)]
    norm_num
  rw [hz, h255]

/-- Counterexample to C2 as stated: for x+y on a 2 by 2 grid, cell (0, 1)
has p = 1/2, and the claim's colour formula red = 255*(1-p) gives the
non-integer 127.5, while the code stores the truncated byte 127: the
written red channel is strictly below the claimed value. -/
theorem surface_colour_byte_truncated :
    surfaceBuffer 2 (fun x y => x + y) emptyBuf 1 1 = some ⟨127, 0, 127⟩ ∧
    (127 : ℚ) < 255 * (1 - pNorm 2 (fun x y => x + y) 0 1) ∧
    255 * (1 - pNorm 2 (fun x y => x + y) 0 1) < 128 := by
  refine ⟨?_, ?_, ?_⟩
  · with_unfolding_all rfl
  · with_unfolding_all decide
  · with_unfolding_all decide

/-- Claim C2 (amended): in Surface mode with max > min, the second pass
writes grid cell (i, j) at buffer row (N-1)-i, column j with colour
(red = 255*(1-p), green = 0, blue = 255*p) truncated channel-wise to
bytes, where p = (z - min)/(max - min); in particular for the expression
x+y the cell (0, 0) (buffer row N-1, column 0) is pure red (255,0,0) and
the cell (N-1, N-1) (buffer row 0, column N-1) is pure blue (0,0,255). -/
theorem surface_second_pass_colour :
    (∀ (N : ℕ) (f : ℚ → ℚ → ℚ) (b0 : Buffer) (i j : ℕ),
      i < N → j < N → (minmax N f).1 < (minmax N f).2 →
      surfaceBuffer N f b0 (((N : ℤ) - 1) - (i : ℤ)) (j : ℤ) =
        some ⟨ctrunc (255 * (1 - pNorm N f i j)), 0,
              ctrunc (255 * pNorm N f i j)⟩) ∧
    (∀ (N : ℕ) (b0 : Buffer), 2 ≤ N →
      surfaceBuffer N (fun x y => x + y) b0 ((N : ℤ) - 1) 0 =
        some ⟨255, 0, 0⟩ ∧
      surfaceBuffer N (fun x y => x + y) b0 0 ((N : ℤ) - 1) =
        some ⟨0, 0, 255⟩) := by
  constructor
  · intro N f b0 i j hi hj hlt
    rw [surfaceBuffer_cell N f b0 hi hj]
    unfold surfaceColor
    rw [if_neg (sub_ne_zero.mpr (ne_of_gt hlt))]
    rfl
  · intro N b0 hN2
    have hN : 0 < N := by omega
    have hmm := minmax_addXY N hN2
    have hmn : (minmax N (fun x y => x + y)).1 = 0 := by rw [hmm]
    have hmx : (minmax N (fun x y => x + y)).2 =
        zval N (fun x y => x + y) (N - 1) (N - 1) := by rw [hmm]
    have hNQ : (0 : ℚ) < (N : ℚ) := by exact_mod_cast hN
    have h1Q : (0 : ℚ) < ((N - 1 : ℕ) : ℚ) := by
      have : 0 < N - 1 := by omega
      exact_mod_cast this
    have hzpos : 0 < zval N (fun x y => x + y) (N - 1) (N - 1) := by
      unfold zval
      exact add_pos (div_pos h1Q hNQ) (div_pos h1Q hNQ)
    have hz00 : zval N (fun x y => x + y) 0 0 = 0 := by
      unfold zval
      norm_num
    have hcast : ((N - 1 : ℕ) : ℤ) = (N : ℤ) - 1 := by omega
    constructor
    · have hcell := surfaceBuffer_cell N (fun x y => x + y) b0 hN hN
      rw [hz00, hmn, hmx, Nat.cast_zero, sub_zero] at hcell
      rw [hcell]
      exact surfaceColor_at_min _ (ne_of_gt hzpos)
    · have hcell := surfaceBuffer_cell N (fun x y => x + y) b0
        (Nat.sub_lt hN one_pos) (Nat.sub_lt hN one_pos)
      rw [hmn, hmx, hcast, sub_self] at hcell
      rw [hcell]
      exact surfaceColor_at_max _ (ne_of_gt hzpos)

/-- Witness for C2: the corner cells for x+y on a 2 by 2 grid. -/
theorem surface_second_pass_colour_witness :
    surfaceBuffer 2 (fun x y => x + y) emptyBuf (((2 : ℕ) : ℤ) - 1) 0 =
      some ⟨255, 0, 0⟩ :=
  (surface_second_pass_colour.2 2 emptyBuf (by decide)).1
